import Mathlib

/-!
# Verification of the vnix core against its specification

Shallow embedding of the vnix repository's core subsystems:

* the Unit data model and accessors (`src/vnix/core/unit2.rs`),
* the asynchronous resolver `read_async` (`src/vnix/core/unit2.rs`),
* users, signing and verification (`src/vnix/core/user.rs`),
* kernel registries and the cooperative scheduler (`src/vnix/core/kern.rs`),
* the task composition operators (`src/vnix/serv/sys/task.rs`).

External cryptographic primitives (SHA3-256, P-256 ECDSA) are consumed
through a narrow contract in the source; they are embedded as parameters
of a `CryptoModel`.  Base64 is the standard padded alphabet used by the
`base64ct` crate and is implemented concretely.  Rust generators are
embedded by flattening each coroutine to its final outcome (with an
explicit divergence marker where the source can loop forever).
-/

namespace Vnix

/-- Kernel error kind, from `enum KernErr` in `src/vnix/core/kern.rs`.
The payloads of `ParseErr`, `DrvErr` and `ServErr` live in modules that
are irrelevant to the claims and are dropped. -/
inductive KE where
  | MemoryOut
  | EncodeFault
  | DecodeFault
  | CompressionFault
  | DecompressionFault
  | CreatePrivKeyFault
  | CreatePubKeyFault
  | SignFault
  | SignVerifyFault
  | HashVerifyFault
  | UsrNotFound
  | UsrNameAlreadyReg
  | UsrAlreadyReg
  | UsrRegWithAnotherName
  | ServNotFound
  | ServAlreadyReg
  | CannotCreateServInstance
  | TaskAlreadyReg
  | TaskNotFound
  | DbLoadFault
  | DbSaveFault
  | HelpTopicNotFound
  | ParseErr
  | DrvErr
  | ServErr
  deriving DecidableEq, Repr

/-- `enum Addr` from `src/vnix/core/kern.rs`: local or an eight-field
remote address. -/
inductive AddrT where
  | local_
  | remote (a : List Nat)
  deriving DecidableEq, Repr

/-- `enum Int` from `src/vnix/core/unit2.rs`: small signed, small
unsigned, or big integer. -/
inductive IntV where
  | small (v : Int)
  | nat (v : Nat)
  | big (v : Int)
  deriving DecidableEq, Repr

/-- `enum Dec` from `src/vnix/core/unit2.rs`.  The 32-bit float payload
is represented by its bit pattern; the big rational by a numerator and
denominator pair. -/
inductive DecV where
  | small (bits : Nat)
  | big (numer : Int) (denom : Int)
  deriving DecidableEq, Repr

/-- `enum UnitType` from `src/vnix/core/unit2.rs`: the Unit value tree.
`Rc` sharing is identity-irrelevant for the claims and is dropped. -/
inductive UnitT where
  | none
  | bool (v : Bool)
  | byte (v : Nat)
  | int (v : IntV)
  | dec (v : DecV)
  | str (s : String)
  | ref (path : List String)
  | stream (u : UnitT) (serv : String) (addr : AddrT)
  | pair (u0 : UnitT) (u1 : UnitT)
  | list (lst : List UnitT)
  | map (m : List (UnitT × UnitT))

namespace UnitT

/-- `Unit::as_str` from `src/vnix/core/unit2.rs`. -/
def as_str : UnitT → Option String
  | .str s => some s
  | _ => Option.none

/-- `Unit::as_uint` from `src/vnix/core/unit2.rs`. -/
def as_uint : UnitT → Option Nat
  | .int (.nat v) => some v
  | _ => Option.none

/-- `Unit::as_pair` from `src/vnix/core/unit2.rs`. -/
def as_pair : UnitT → Option (UnitT × UnitT)
  | .pair u0 u1 => some (u0, u1)
  | _ => Option.none

/-- `Unit::as_list` from `src/vnix/core/unit2.rs`. -/
def as_list : UnitT → Option (List UnitT)
  | .list lst => some lst
  | _ => Option.none

/-- `Unit::as_map` from `src/vnix/core/unit2.rs`. -/
def as_map : UnitT → Option (List (UnitT × UnitT))
  | .map m => some m
  | _ => Option.none

/-- `Unit::as_stream` from `src/vnix/core/unit2.rs`. -/
def as_stream : UnitT → Option (UnitT × String × AddrT)
  | .stream u serv addr => some (u, serv, addr)
  | _ => Option.none

/-- `Unit::as_map_find` from `src/vnix/core/unit2.rs`: keep the pairs
whose key is a string, then return the value of the first pair whose
key equals the search string. -/
def as_map_find (u : UnitT) (sch : String) : Option UnitT :=
  match u with
  | .map m =>
    (m.filterMap (fun p => (as_str p.1).map (fun s => (s, p.2)))).findSome?
      (fun q => if q.1 = sch then some q.2 else Option.none)
  | _ => Option.none

/-- True exactly on the `Ref` variant. -/
def isRef : UnitT → Bool
  | .ref _ => true
  | _ => false

/-- True exactly on the `Stream` variant. -/
def isStream : UnitT → Bool
  | .stream _ _ _ => true
  | _ => false

end UnitT

/-- Specification-side first-match map lookup: the value of the first
pair whose key, viewed as a string, equals the search string. -/
def mapFindSpec (m : List (UnitT × UnitT)) (sch : String) : Option UnitT :=
  m.findSome? (fun p =>
    match UnitT.as_str p.1 with
    | some s => if s = sch then some p.2 else Option.none
    | Option.none => Option.none)

/-- Outcome of one full drive of a `read_async` coroutine from
`src/vnix/core/unit2.rs`: a resolved value, an absent indicator, a
kernel error, or a panic (the Rust source reaches `todo!()`). -/
inductive RA where
  | ok (r : Option (UnitT × String))
  | err (e : KE)
  | panicked

/-- `Unit::read_async` from `src/vnix/core/unit2.rs`.  The `Ref` and
`Stream` match arms of the source are `todo!()` and panic when the
coroutine is driven; every other variant resolves to itself paired with
the incoming athority. -/
def read_async (u : UnitT) (ath : String) : RA :=
  match u with
  | .ref _ => RA.panicked
  | .stream _ _ _ => RA.panicked
  | _ => RA.ok (some (u, ath))

/-! ## Base64 (standard padded alphabet, strict, as used by `base64ct`) -/

/-- The standard base64 alphabet. -/
def b64Alphabet : List Char :=
  "ABCDEFGHIJKLMNOPQRSTUVWXYZabcdefghijklmnopqrstuvwxyz0123456789+/".toList

/-- Index of a character in the base64 alphabet, absent for characters
outside it. -/
def b64IndexOf (c : Char) : Option Nat :=
  b64Alphabet.indexOf? c

/-- Character for a six-bit value. -/
def b64Chr (n : Nat) : Char :=
  b64Alphabet.getD n 'A'

/-- Strict base64 decoding of a character list: groups of four symbols,
padding only at the end, trailing bits of a padded group required to be
zero. -/
def b64DecodeCore : List Char → Option (List Nat)
  | [] => some []
  | c0 :: c1 :: c2 :: c3 :: rest =>
    match b64IndexOf c0, b64IndexOf c1 with
    | some i0, some i1 =>
      if c2 = '=' then
        if c3 = '=' ∧ rest = [] ∧ i1 % 16 = 0 then
          some [i0 * 4 + i1 / 16]
        else Option.none
      else
        match b64IndexOf c2 with
        | some i2 =>
          if c3 = '=' then
            if rest = [] ∧ i2 % 4 = 0 then
              some [i0 * 4 + i1 / 16, (i1 % 16) * 16 + i2 / 4]
            else Option.none
          else
            match b64IndexOf c3 with
            | some i3 =>
              (b64DecodeCore rest).map
                (fun tail =>
                  (i0 * 4 + i1 / 16) :: ((i1 % 16) * 16 + i2 / 4) ::
                    ((i2 % 4) * 64 + i3) :: tail)
            | Option.none => Option.none
        | Option.none => Option.none
    | _, _ => Option.none
  | _ => Option.none

/-- `Base64::decode_vec` of the `base64ct` crate (spec §3.2: keys and
signatures are base64-encoded). -/
def b64Decode (s : String) : Option (List Nat) :=
  b64DecodeCore s.toList

/-- Base64 encoding of a byte list, with padding. -/
def b64EncodeCore : List Nat → List Char
  | [] => []
  | [b0] => [b64Chr (b0 / 4), b64Chr (b0 % 4 * 16), '=', '=']
  | [b0, b1] => [b64Chr (b0 / 4), b64Chr (b0 % 4 * 16 + b1 / 16),
                 b64Chr (b1 % 16 * 4), '=']
  | b0 :: b1 :: b2 :: rest =>
    b64Chr (b0 / 4) :: b64Chr (b0 % 4 * 16 + b1 / 16) ::
      b64Chr (b1 % 16 * 4 + b2 / 64) :: b64Chr (b2 % 64) ::
        b64EncodeCore rest

/-- `Base64::encode_string` of the `base64ct` crate. -/
def b64Encode (bs : List Nat) : String :=
  String.mk (b64EncodeCore bs)

/-! ## Users, signing and verification (`src/vnix/core/user.rs`) -/

/-- The cryptographic primitives consumed by the core through a narrow
contract (spec §1, §6): SHA3-256, P-256 ECDSA key / signature parsing,
signing and verification, and the canonical byte serialization of a
Unit (spec §3.3, defined in the `unit` module that is not among the
sources: any total deterministic encoding satisfies the contract).
Parsed keys and signatures are carried as byte lists. -/
structure CryptoModel where
  sha3 : List Nat → List Nat
  sigFromBytes : List Nat → Option (List Nat)
  pubFromSec1 : List Nat → Option (List Nat)
  privFromBytes : List Nat → Option (List Nat)
  ecVerify : List Nat → List Nat → List Nat → Bool
  ecSign : List Nat → List Nat → List Nat
  asBytes : UnitT → List Nat

/-- `struct Usr` from `src/vnix/core/user.rs`. -/
structure UsrM where
  name : String
  pub_key : String
  priv_key : Option String
  deriving DecidableEq, Repr

/-- `Usr::sign` from `src/vnix/core/user.rs`: with a private key, decode
it from base64, parse it, sign the unit's canonical bytes and encode the
signature; without one, fail with `SignFault`. -/
def usrSign (M : CryptoModel) (usr : UsrM) (u : UnitT) : Except KE String :=
  match usr.priv_key with
  | some priv_key_s =>
    match b64Decode priv_key_s with
    | Option.none => .error KE.DecodeFault
    | some priv_key_b =>
      match M.privFromBytes priv_key_b with
      | Option.none => .error KE.CreatePrivKeyFault
      | some priv_key =>
        .ok (b64Encode (M.ecSign priv_key (M.asBytes u)))
  | Option.none => .error KE.SignFault

/-- `Usr::verify` from `src/vnix/core/user.rs`: decode and parse the
signature, decode and parse the public key, then recompute the hash and
compare, and finally verify the signature. -/
def usrVerify (M : CryptoModel) (usr : UsrM) (u : UnitT)
    (sign hash : String) : Except KE Unit :=
  match b64Decode sign with
  | Option.none => .error KE.DecodeFault
  | some sign_b =>
    match M.sigFromBytes sign_b with
    | Option.none => .error KE.SignVerifyFault
    | some sig =>
      match b64Decode usr.pub_key with
      | Option.none => .error KE.DecodeFault
      | some pub_key_b =>
        match M.pubFromSec1 pub_key_b with
        | Option.none => .error KE.CreatePubKeyFault
        | some pub_key =>
          let msg := M.asBytes u
          let h := M.sha3 msg
          if b64Encode h ≠ hash then .error KE.HashVerifyFault
          else if M.ecVerify pub_key msg sig then .ok ()
          else .error KE.SignVerifyFault

/-- The hash string `verify` recomputes: base64 of the SHA3-256 digest
of the unit's canonical bytes. -/
def recomputedHash (M : CryptoModel) (u : UnitT) : String :=
  b64Encode (M.sha3 (M.asBytes u))

/-- `struct Msg` from the `msg` module (spec §3.3): athority, unit,
signature, hash. -/
structure MsgM where
  ath : String
  msg : UnitT
  sign : String
  hash : String

/-- Modelled from the spec: `Msg::new` (the `msg` module is not among
the sources).  Spec §3.3: the envelope carries the user's name, the
unit, the base64 ECDSA signature of the unit's canonical bytes and the
base64 SHA3-256 hash of the same bytes. -/
def msgNew (M : CryptoModel) (usr : UsrM) (u : UnitT) : Except KE MsgM :=
  match usrSign M usr u with
  | .error e => .error e
  | .ok s => .ok ⟨usr.name, u, s, recomputedHash M u⟩

/-! ## Kernel state and registries (`src/vnix/core/kern.rs`) -/

/-- `TaskSig` from the `task` module: the only defined signal is Kill. -/
inductive TaskSigE where
  | kill
  deriving DecidableEq, Repr

/-- `TaskRun(unit, service_name)`, the run descriptor of a task
(spec §3.4). -/
structure TaskRunM where
  u : UnitT
  serv : String

/-- `struct Task` fields (spec §3.4): id, parent id, user, name and the
run descriptor. -/
structure TaskM where
  usr : String
  name : String
  id : Nat
  parentId : Nat
  run : TaskRunM

/-- `struct Serv` record relevant to dispatch: name and help text. -/
structure ServM where
  name : String
  help : String
  deriving DecidableEq, Repr

/-- The kernel registries of `struct Kern` from `src/vnix/core/kern.rs`
used by the claims (device handles, the terminal, the data pool and the
RAM store are claim-irrelevant and dropped). -/
structure KernSt where
  users : List UsrM
  services : List ServM
  lastTaskId : Nat
  currTaskId : Nat
  tasksQueue : List TaskM
  tasksSignals : List (Nat × TaskSigE)

/-- `Kern::reg_usr` from `src/vnix/core/kern.rs`: three duplicate checks
in order, then push. -/
def reg_usr (k : KernSt) (usr : UsrM) : Except KE Unit × KernSt :=
  if k.users.any (fun u => u.name = usr.name ∧ u.pub_key ≠ usr.pub_key) then
    (.error KE.UsrNameAlreadyReg, k)
  else if k.users.any (fun u => u.name = usr.name ∧ u.pub_key = usr.pub_key) then
    (.error KE.UsrAlreadyReg, k)
  else if k.users.any (fun u => u.name ≠ usr.name ∧ u.pub_key = usr.pub_key) then
    (.error KE.UsrRegWithAnotherName, k)
  else
    (.ok (), { k with users := k.users ++ [usr] })

/-- `Kern::get_usr` from `src/vnix/core/kern.rs`. -/
def get_usr (k : KernSt) (ath : String) : Except KE UsrM :=
  match k.users.find? (fun usr => usr.name = ath) with
  | some usr => .ok usr
  | Option.none => .error KE.UsrNotFound

/-- `Kern::get_serv` from `src/vnix/core/kern.rs`. -/
def get_serv (k : KernSt) (name : String) : Except KE ServM :=
  match k.services.find? (fun s => s.name = name) with
  | some s => .ok s
  | Option.none => .error KE.ServNotFound

/-- `Kern::reg_task` from `src/vnix/core/kern.rs`: push a task built
from the current `last_task_id` and `curr_task_id`, increment
`last_task_id`, return the previous value. -/
def reg_task (k : KernSt) (usr name : String) (run : TaskRunM) :
    Except KE Nat × KernSt :=
  let k' : KernSt :=
    { k with
      tasksQueue := k.tasksQueue ++ [⟨usr, name, k.lastTaskId, k.currTaskId, run⟩],
      lastTaskId := k.lastTaskId + 1 }
  (.ok (k'.lastTaskId - 1), k')

/-- `Kern::task_sig` from `src/vnix/core/kern.rs`: unconditionally queue
the signal. -/
def task_sig (k : KernSt) (id : Nat) (sig : TaskSigE) :
    Except KE Unit × KernSt :=
  (.ok (), { k with tasksSignals := k.tasksSignals ++ [(id, sig)] })

/-- `Kern::msg` from `src/vnix/core/kern.rs`: locate the user by name
and build a signed envelope. -/
def kernMsg (M : CryptoModel) (k : KernSt) (ath : String) (u : UnitT) :
    Except KE MsgM :=
  match get_usr k ath with
  | .error e => .error e
  | .ok usr => msgNew M usr u

/-- `Kern::help_serv` from `src/vnix/core/kern.rs`: a map holding the
list of registered service names, wrapped in a signed envelope. -/
def help_serv (M : CryptoModel) (k : KernSt) (ath : String) : Except KE MsgM :=
  kernMsg M k ath
    (UnitT.map [(UnitT.str "msg", UnitT.list (k.services.map (fun s => UnitT.str s.name)))])

/-- Result of `Kern::send`: the help-text coroutine, the service-list
coroutine (carrying the result it will produce), or the service
handler's coroutine applied to the message. -/
inductive SendOut where
  | helpOut (m : MsgM)
  | servOut (r : Except KE (Option MsgM))
  | handler (m : MsgM) (servName : String)

/-- The help topic `Kern::send` extracts: the string under key "help"
of the unit viewed as a map, or else the unit itself viewed as a
string. -/
def topicOf (u : UnitT) : Option String :=
  match (UnitT.as_map_find u "help").bind UnitT.as_str with
  | some topic => some topic
  | Option.none => UnitT.as_str u

/-- `Kern::send` from `src/vnix/core/kern.rs`: verify the message, look
up the service, build the help envelope, dispatch on the help topic,
otherwise hand the message to the service handler. -/
def send (M : CryptoModel) (k : KernSt) (servName : String) (m : MsgM) :
    Except KE (Option SendOut) :=
  match get_usr k m.ath with
  | .error e => .error e
  | .ok usr =>
    match usrVerify M usr m.msg m.sign m.hash with
    | .error e => .error e
    | .ok _ =>
      match get_serv k servName with
      | .error e => .error e
      | .ok serv =>
        match kernMsg M k m.ath (UnitT.map [(UnitT.str "msg", UnitT.str serv.help)]) with
        | .error e => .error e
        | .ok help_msg =>
          match topicOf m.msg with
          | some topic =>
            if topic = "info" ∨ topic = "help" then
              .ok (some (SendOut.helpOut help_msg))
            else if topic = "serv" then
              .ok (some (SendOut.servOut ((help_serv M k m.ath).map some)))
            else
              .ok (some (SendOut.handler m servName))
          | Option.none => .ok (some (SendOut.handler m servName))

/-! ## The cooperative scheduler (`Kern::run`, `src/vnix/core/kern.rs`)

A task's coroutine is flattened to a resume budget: `yields = some n`
means the coroutine yields `n` more times and then completes with
`out`; `yields = Option.none` means it never completes (an infinite
task).  The working-set entries pair the task record with its coroutine
and done flag, as the source does.  Model coroutines do not register
child tasks, so the mid-loop drain of `tasks_queue` is always empty and
is omitted. -/

/-- One working-set entry `(task, (coroutine, done))` of `Kern::run`. -/
structure Entry where
  task : TaskM
  yields : Option Nat
  out : Except KE (Option MsgM)
  done : Bool

/-- The scheduler state visible to `Kern::run`'s inner loop. -/
structure SchedSt where
  running : List TaskM
  signals : List (Nat × TaskSigE)
  results : List (Nat × Except KE (Option MsgM))
  curr : Nat

/-- The body of `Kern::run`'s inner loop for one working-set entry:
first drain a Kill signal for the task's id (mark done, remove from the
running list, consume every queued signal for that id — `drain_filter`
completes on drop — and push no result); a done entry is then skipped;
otherwise set `curr_task_id` and resume once, pushing `(id, out)` and
leaving the running list on completion. -/
def procEntry (st : SchedSt) (e : Entry) : SchedSt × Entry :=
  let killed := st.signals.any (fun p => p.1 = e.task.id)
  let st :=
    if killed then
      { st with
        running := st.running.filter (fun t => t.id ≠ e.task.id),
        signals := st.signals.filter (fun p => p.1 ≠ e.task.id) }
    else st
  let e := if killed then { e with done := true } else e
  if e.done then (st, e)
  else
    let st := { st with curr := e.task.id }
    match e.yields with
    | some 0 =>
      ({ st with
         results := st.results ++ [(e.task.id, e.out)],
         running := st.running.filter (fun t => t.id ≠ e.task.id) },
       { e with done := true })
    | some (n + 1) => (st, { e with yields := some n })
    | Option.none => (st, e)

/-- One pass of `Kern::run`'s inner loop over the working set, threading
the kernel state left to right. -/
def passAll (st : SchedSt) : List Entry → SchedSt × List Entry
  | [] => (st, [])
  | e :: es =>
    let p := procEntry st e
    let q := passAll p.1 es
    (q.1, p.2 :: q.2)

/-- All working-set entries are done. -/
def allDone (es : List Entry) : Bool :=
  es.all (fun e => e.done)

/-- `Kern::run`'s inner loop: run passes until every entry is done
(`Option.none` when the fuel runs out first). -/
def sched : Nat → SchedSt → List Entry → Option (SchedSt × List Entry)
  | 0, _, _ => Option.none
  | fuel + 1, st, es =>
    let p := passAll st es
    if allDone p.2 then some p else sched fuel p.1 p.2

/-- The results recorded for a given task id. -/
def resFor (id : Nat) (st : SchedSt) : List (Nat × Except KE (Option MsgM)) :=
  st.results.filter (fun p => p.1 = id)

/-- Whether a signal for a given task id is queued. -/
def sigFor (id : Nat) (st : SchedSt) : Bool :=
  st.signals.any (fun p => p.1 = id)

/-- Whether a task with the given id is in the running list. -/
def runningFor (id : Nat) (st : SchedSt) : Bool :=
  st.running.any (fun t => t.id = id)

/-! ## Task composition operators (`src/vnix/serv/sys/task.rs`)

Each operator coroutine is flattened to its final outcome.  `TR α`
mirrors `Maybe<α, KernErr> = Result<Option<α>, KernErr>` with an extra
`hung` marker for the source's infinite loop exhausting its fuel.  The
kernel interactions of the operators — the resolver of the `unit`
module (not among the sources) and task registration plus result
awaiting — are supplied by a `TaskEnv`. -/

/-- Outcome of one task-service sub-coroutine. -/
inductive TR (α : Type) where
  | ok (a : α)
  | noRes
  | err (e : KE)
  | hung

/-- Modelled from the spec: the kernel services used by the operator
bodies.  `resolve` is `read_async(unit, ath, orig, kern)` of the `unit`
module, which is not among the sources (spec §4.2); `regTask` is
`Kern::reg_task` as seen by a handler; `spawnAwait` is `reg_task`
followed by the `task_result!` wait, yielding the child's message. -/
structure TaskEnv where
  resolve : UnitT → String → UnitT → Except KE (Option (UnitT × String))
  regTask : String → String → TaskRunM → Except KE Nat
  spawnAwait : String → TaskRunM → Except KE (Option MsgM)

/-- Modelled from the spec: `Unit::merge` / `Msg::merge_with`
(spec §3.3, §4.1; the `unit` and `msg` modules are not among the
sources): a shallow map overlay where the right operand's entry for a
duplicate key overrides the left's; non-maps are replaced.  Key
equality is the structural equality of units. -/
def beqU : UnitT → UnitT → Bool
  | .none, .none => true
  | .bool a, .bool b => a = b
  | .byte a, .byte b => a = b
  | .int a, .int b => a = b
  | .dec a, .dec b => a = b
  | .str a, .str b => a = b
  | .ref a, .ref b => a = b
  | .stream u1 s1 a1, .stream u2 s2 a2 => beqU u1 u2 && s1 = s2 && a1 = a2
  | .pair a1 b1, .pair a2 b2 => beqU a1 a2 && beqU b1 b2
  | .list [], .list [] => true
  | .list (h1 :: t1), .list (h2 :: t2) =>
    beqU h1 h2 && beqU (.list t1) (.list t2)
  | .map [], .map [] => true
  | .map ((k1, v1) :: t1), .map ((k2, v2) :: t2) =>
    beqU k1 k2 && beqU v1 v2 && beqU (.map t1) (.map t2)
  | _, _ => false

/-- Modelled from the spec: shallow unit merge (spec §4.1). -/
def mergeWith (a b : UnitT) : UnitT :=
  match a, b with
  | .map m1, .map m2 =>
    .map (m1.filter (fun p => !(m2.any (fun q => beqU q.1 p.1))) ++ m2)
  | _, _ => b

/-- The `as_async!(u, as_str, …)` pattern: resolve, then view as a
string; absent at either step propagates as `Ok(None)`. -/
def asStrAsync (env : TaskEnv) (u : UnitT) (ath : String) (orig : UnitT) :
    TR (String × String) :=
  match env.resolve u ath orig with
  | .error e => .err e
  | .ok Option.none => .noRes
  | .ok (some (v, a)) =>
    match UnitT.as_str v with
    | some s => .ok (s, a)
    | Option.none => .noRes

/-- The `as_async!(u, as_uint, …)` pattern. -/
def asUintAsync (env : TaskEnv) (u : UnitT) (ath : String) (orig : UnitT) :
    TR (Nat × String) :=
  match env.resolve u ath orig with
  | .error e => .err e
  | .ok Option.none => .noRes
  | .ok (some (v, a)) =>
    match UnitT.as_uint v with
    | some n => .ok (n, a)
    | Option.none => .noRes

/-- The `as_async!(u, as_list, …)` pattern. -/
def asListAsync (env : TaskEnv) (u : UnitT) (ath : String) (orig : UnitT) :
    TR (List UnitT × String) :=
  match env.resolve u ath orig with
  | .error e => .err e
  | .ok Option.none => .noRes
  | .ok (some (v, a)) =>
    match UnitT.as_list v with
    | some lst => .ok (lst, a)
    | Option.none => .noRes

/-- The `as_map_find_as_async!(msg, key, as_list, …)` pattern of
`queue`/`sim`: map lookup, resolve, view as list. -/
def mapFindListAsync (env : TaskEnv) (msg : UnitT) (key : String)
    (ath : String) (orig : UnitT) : TR (List UnitT × String) :=
  match UnitT.as_map_find msg key with
  | Option.none => .noRes
  | some u => asListAsync env u ath orig

/-- The counted iteration of `_loop`: resolve the stream `cnt` times,
updating the athority whenever resolution yields one. -/
def loopIter (env : TaskEnv) (orig msg : UnitT) :
    Nat → String → Except KE String
  | 0, ath => .ok ath
  | n + 1, ath =>
    match env.resolve msg ath orig with
    | .error e => .error e
    | .ok (some (_, a)) => loopIter env orig msg n a
    | .ok Option.none => loopIter env orig msg n ath

/-- The infinite branch of `_loop`: resolve forever, exiting only on an
error; `hung` when the fuel runs out. -/
def loopInf (env : TaskEnv) (orig msg : UnitT) :
    Nat → String → TR String
  | 0, _ => .hung
  | n + 1, ath =>
    match env.resolve msg ath orig with
    | .error e => .err e
    | .ok _ => loopInf env orig msg n ath

/-- The body of `_loop` after recognition: a `(count, stream)` pair
iterates `count` times and returns the threaded athority; anything else
loops forever. -/
def loopBody (env : TaskEnv) (fuel : Nat) (ath : String) (orig msg : UnitT) :
    TR String :=
  match UnitT.as_pair msg with
  | some (cnt, m) =>
    match asUintAsync env cnt ath orig with
    | .err e => .err e
    | .noRes => .noRes
    | .hung => .hung
    | .ok (n, ath') =>
      match loopIter env orig m n ath' with
      | .error e => .err e
      | .ok a => .ok a
  | Option.none => loopInf env orig msg fuel ath

/-- `_loop` from `src/vnix/serv/sys/task.rs`: recognize the
`{task.loop: …}` map form or the `(task.loop …)` pair form, then run
the loop body. -/
def opLoop (env : TaskEnv) (fuel : Nat) (ath : String) (orig msg : UnitT) :
    TR String :=
  match UnitT.as_map_find msg "task.loop" with
  | some m => loopBody env fuel ath orig m
  | Option.none =>
    match UnitT.as_pair msg with
    | some (s, m) =>
      match asStrAsync env s ath orig with
      | .err e => .err e
      | .noRes => .noRes
      | .hung => .hung
      | .ok (s', ath') =>
        if s' ≠ "task.loop" then .noRes
        else loopBody env fuel ath' orig m
    | Option.none => .noRes

/-- `separate` from `src/vnix/serv/sys/task.rs`: recognize the
`task.sep` form, register a detached child when the payload is a
stream, and return the (possibly updated) athority without awaiting. -/
def opSeparate (env : TaskEnv) (ath : String) (orig msg : UnitT) :
    TR String :=
  let body := fun (ath' : String) (m : UnitT) =>
    match UnitT.as_stream m with
    | some (mu, serv, _) =>
      match env.regTask ath' "sys.task" ⟨mu, serv⟩ with
      | .error e => TR.err e
      | .ok _ => TR.ok ath'
    | Option.none => TR.ok ath'
  match UnitT.as_map_find msg "task.sep" with
  | some m => body ath m
  | Option.none =>
    match UnitT.as_pair msg with
    | some (s, m) =>
      match asStrAsync env s ath orig with
      | .err e => .err e
      | .noRes => .noRes
      | .hung => .hung
      | .ok (s', ath') =>
        if s' ≠ "task.sep" then .noRes
        else body ath' m
    | Option.none => .noRes

/-- The per-service step of `chain`: register a child task under the
resolved service name, await its result, and merge the child's unit
over the previous message, adopting the child's athority. -/
def chainSteps (env : TaskEnv) (orig : UnitT) :
    List UnitT → UnitT → String → TR (UnitT × String)
  | [], m, ath => .ok (m, ath)
  | p :: ps, m, ath =>
    match asStrAsync env p ath orig with
    | .err e => .err e
    | .noRes => .noRes
    | .hung => .hung
    | .ok (serv, ath') =>
      match env.spawnAwait ath' ⟨m, serv⟩ with
      | .error e => .err e
      | .ok Option.none => .noRes
      | .ok (some u) =>
        chainSteps env orig ps (mergeWith m u.msg) u.ath

/-- `chain` from `src/vnix/serv/sys/task.rs`: a `{task: [serv…]}` map
pipes the base message through each service in order. -/
def opChain (env : TaskEnv) (ath : String) (orig msg : UnitT) :
    TR (UnitT × String) :=
  match UnitT.as_map_find msg "task" with
  | Option.none => .noRes
  | some u =>
    match env.resolve u ath orig with
    | .error e => .err e
    | .ok Option.none => .noRes
    | .ok (some (v, ath1)) =>
      match UnitT.as_list v with
      | Option.none => .noRes
      | some lst =>
        match UnitT.as_map_find msg "msg" with
        | some mu =>
          match env.resolve mu ath1 orig with
          | .error e => .err e
          | .ok (some (m0, ath2)) => chainSteps env orig lst m0 ath2
          | .ok Option.none => chainSteps env orig lst msg ath1
        | Option.none => chainSteps env orig lst msg ath1

/-- The awaiting iteration of `queue`: resolve each list element in
order, updating the athority whenever resolution yields one. -/
def queueGo (env : TaskEnv) (orig : UnitT) : List UnitT → String → TR String
  | [], a => .ok a
  | p :: ps, a =>
    match env.resolve p a orig with
    | .error e => .err e
    | .ok (some (_, a')) => queueGo env orig ps a'
    | .ok Option.none => queueGo env orig ps a

/-- `queue` from `src/vnix/serv/sys/task.rs`: recognize the `task.que`
form carrying a list, then sequentially resolve each element, threading
the athority; return the threaded athority. -/
def opQueue (env : TaskEnv) (ath : String) (orig msg : UnitT) :
    TR String :=
  let go := queueGo env orig
  match mapFindListAsync env msg "task.que" ath orig with
  | .err e => .err e
  | .hung => .hung
  | .ok (lst, ath1) => go lst ath1
  | .noRes =>
    match UnitT.as_pair msg with
    | some (s, l) =>
      match asStrAsync env s ath orig with
      | .err e => .err e
      | .noRes => .noRes
      | .hung => .hung
      | .ok (s', ath1) =>
        if s' ≠ "task.que" then .noRes
        else
          match asListAsync env l ath1 orig with
          | .err e => .err e
          | .noRes => .noRes
          | .hung => .hung
          | .ok (lst, ath2) => go lst ath2
    | Option.none => .noRes

/-- The registering iteration of `sim`: register every stream element
as a detached child under the fixed athority. -/
def simGo (env : TaskEnv) (ath : String) : List UnitT → TR Unit
  | [] => .noRes
  | p :: ps =>
    match UnitT.as_stream p with
    | some (mu, serv, _) =>
      match env.regTask ath "sys.task" ⟨mu, serv⟩ with
      | .error e => .err e
      | .ok _ => simGo env ath ps
    | Option.none => simGo env ath ps

/-- `sim` from `src/vnix/serv/sys/task.rs`: recognize the `task.sim`
form carrying a list, register every stream element as a detached
child, and finish with `Ok(None)`. -/
def opSim (env : TaskEnv) (ath : String) (orig msg : UnitT) :
    TR Unit :=
  let go := simGo env ath
  match mapFindListAsync env msg "task.sim" ath orig with
  | .err e => .err e
  | .hung => .hung
  | .ok (lst, _) => go lst
  | .noRes =>
    match UnitT.as_pair msg with
    | some (s, l) =>
      match asStrAsync env s ath orig with
      | .err e => .err e
      | .noRes => .noRes
      | .hung => .hung
      | .ok (s', ath1) =>
        if s' ≠ "task.sim" then .noRes
        else
          match asListAsync env l ath1 orig with
          | .err e => .err e
          | .noRes => .noRes
          | .hung => .hung
          | .ok (lst, _) => go lst
    | Option.none => .noRes

/-- The per-element step of `stack`: resolve the element, register a
child task sending it to the fixed service, await the result, and adopt
the child message's athority when there is one. -/
def stackSteps (env : TaskEnv) (orig : UnitT) (serv : String) :
    List UnitT → String → TR String
  | [], ath => .ok ath
  | p :: ps, ath =>
    match env.resolve p ath orig with
    | .error e => .err e
    | .ok Option.none => .noRes
    | .ok (some (m, a)) =>
      match env.spawnAwait a ⟨m, serv⟩ with
      | .error e => .err e
      | .ok (some mm) => stackSteps env orig serv ps mm.ath
      | .ok Option.none => stackSteps env orig serv ps a

/-- `stack` from `src/vnix/serv/sys/task.rs`: recognize the `task.stk`
form carrying a `(list)@service` stream, then send each list element to
that service in order, threading the athority. -/
def opStack (env : TaskEnv) (ath : String) (orig msg : UnitT) :
    TR String :=
  let body := fun (u : UnitT) (serv : String) =>
    match asListAsync env u ath orig with
    | .err e => TR.err e
    | .noRes => TR.noRes
    | .hung => TR.hung
    | .ok (lst, ath1) => stackSteps env orig serv lst ath1
  match (UnitT.as_map_find msg "task.stk").bind UnitT.as_stream with
  | some (u, serv, _) => body u serv
  | Option.none =>
    match UnitT.as_pair msg with
    | some (s, m) =>
      match asStrAsync env s ath orig with
      | .err e => .err e
      | .noRes => .noRes
      | .hung => .hung
      | .ok (s', _) =>
        if s' ≠ "task.stk" then .noRes
        else
          match UnitT.as_stream m with
          | some (u, serv, _) => body u serv
          | Option.none => .noRes
    | Option.none => .noRes

/-- `stream` from `src/vnix/serv/sys/task.rs`: when the request unit is
itself a stream, resolve it and return the resolved unit with the
resolved athority. -/
def opStream (env : TaskEnv) (ath : String) (orig msg : UnitT) :
    TR (UnitT × String) :=
  match UnitT.as_stream msg with
  | Option.none => .noRes
  | some _ =>
    match env.resolve msg ath orig with
    | .error e => .err e
    | .ok Option.none => .noRes
    | .ok (some (m, a)) => .ok (m, a)

/-- `run` from `src/vnix/serv/sys/task.rs`: try each operator in order.
For `loop`, `separate`, `queue` and `stack` the returned athority is
compared with the incoming one: a change yields `Some(msg)` and no
change yields `None`, and in both cases the *incoming* athority is
returned.  `chain` and `stream` return their own unit and athority.
The source passes its `msg` argument as the operators' `orig` and its
`orig` as their `msg`, which this definition reproduces. -/
def opRun (env : TaskEnv) (fuel : Nat) (ath : String) (orig msg : UnitT) :
    TR (Option UnitT × String) :=
  match opLoop env fuel ath msg orig with
  | .err e => .err e
  | .hung => .hung
  | .ok a => if a ≠ ath then .ok (some msg, ath) else .ok (Option.none, ath)
  | .noRes =>
  match opSeparate env ath msg orig with
  | .err e => .err e
  | .hung => .hung
  | .ok a => if a ≠ ath then .ok (some msg, ath) else .ok (Option.none, ath)
  | .noRes =>
  match opChain env ath msg orig with
  | .err e => .err e
  | .hung => .hung
  | .ok (m, a) => .ok (some (UnitT.map [(UnitT.str "msg", m)]), a)
  | .noRes =>
  match opSim env ath msg orig with
  | .err e => .err e
  | .hung => .hung
  | .ok _ | .noRes =>
  match opQueue env ath msg orig with
  | .err e => .err e
  | .hung => .hung
  | .ok a => if a ≠ ath then .ok (some msg, ath) else .ok (Option.none, ath)
  | .noRes =>
  match opStack env ath msg orig with
  | .err e => .err e
  | .hung => .hung
  | .ok a => if a ≠ ath then .ok (some msg, ath) else .ok (Option.none, ath)
  | .noRes =>
  match opStream env ath msg orig with
  | .err e => .err e
  | .hung => .hung
  | .ok (m, a) => .ok (some (UnitT.map [(UnitT.str "msg", m)]), a)
  | .noRes => .noRes

/-! ## Sequences of task registrations -/

/-- The ids returned by a sequence of `reg_task` calls, in call order. -/
def regTaskIds (k : KernSt) : List (String × String × TaskRunM) → List Nat
  | [] => []
  | r :: rs =>
    let p := reg_task k r.1 r.2.1 r.2.2
    (match p.1 with
     | .ok i => [i]
     | .error _ => []) ++ regTaskIds p.2 rs

/-! ## Concrete instances used as witnesses and counterexamples -/

/-- A crypto model whose primitives are total and trivial; used to
evaluate the embeddings at concrete inputs. -/
def M0 : CryptoModel :=
  ⟨fun _ => List.replicate 32 0, some, some, some, fun _ _ _ => true,
   fun _ _ => [], fun _ => []⟩

/-- A crypto model whose hash is empty, so that the empty string is a
valid hash of every unit. -/
def M1 : CryptoModel :=
  ⟨fun _ => [], some, some, some, fun _ _ _ => true, fun _ _ => [], fun _ => []⟩

/-- A user with a (trivially encoded) private key. -/
def usr0 : UsrM := ⟨"a", "", some ""⟩

/-- A kernel with one user and one service. -/
def k0 : KernSt := ⟨[usr0], [⟨"echo", "h"⟩], 0, 0, [], []⟩

/-- A message from `usr0` whose unit is the bare string "serv". -/
def m0 : MsgM := ⟨"a", UnitT.str "serv", "", ""⟩

/-- A task environment whose resolver always changes the athority to
"other". -/
def env0 : TaskEnv :=
  ⟨fun u _ _ => .ok (some (u, "other")), fun _ _ _ => .ok 0,
   fun _ _ => .ok Option.none⟩

/-- A request unit in the pair form of `task.que` with an empty list. -/
def uQue : UnitT := UnitT.pair (UnitT.str "task.que") (UnitT.list [])

end Vnix

namespace Vnix

/-! ## Claim C8: `as_map_find` is first-match lookup -/

theorem as_map_find_eq_spec (m : List (UnitT × UnitT)) (k : String) :
    UnitT.as_map_find (UnitT.map m) k = mapFindSpec m k := by
  induction m with
  | nil => rfl
  | cons p t ih =>
    simp only [UnitT.as_map_find, mapFindSpec, List.filterMap_cons] at *
    cases h : UnitT.as_str p.1 with
    | none => simpa [h] using ih
    | some s =>
      by_cases hs : s = k
      · simp [h, hs, List.findSome?_cons]
      · simp [h, hs, List.findSome?_cons]
        simpa using ih

/-- Claim C8: for every unit `u` and search string `k`, `as_map_find` on a
map returns the value of the first pair whose key, viewed as a string,
equals `k` (duplicates permitted, the first wins; absent when no pair
matches), and returns absent on every non-map unit. -/
theorem c8_as_map_find (u : UnitT) (k : String) :
    UnitT.as_map_find u k =
      (match u with
       | UnitT.map m => mapFindSpec m k
       | _ => Option.none) := by
  cases u
  case map m => exact as_map_find_eq_spec m k
  all_goals rfl

/-! ## Claim C7: `read_async` on plain units -/

/-- Claim C7: for every unit that is neither a `Ref` nor a `Stream`,
`read_async` succeeds with the unit itself paired with the input
athority. -/
theorem c7_read_async_plain (u : UnitT) (ath : String)
    (h1 : UnitT.isRef u = false) (h2 : UnitT.isStream u = false) :
    read_async u ath = RA.ok (some (u, ath)) := by
  cases u <;> simp [UnitT.isRef, UnitT.isStream] at h1 h2 ⊢ <;> rfl

theorem c7_read_async_plain_witness :
    UnitT.isRef (UnitT.str "abc") = false ∧
    UnitT.isStream (UnitT.str "abc") = false ∧
    read_async (UnitT.str "abc") "super" = RA.ok (some (UnitT.str "abc", "super")) :=
  ⟨rfl, rfl, c7_read_async_plain (UnitT.str "abc") "super" rfl rfl⟩

/-! ## Claim C6: `read_async` on a remote stream -/

/-- Claim C6 (divergence witness): `read_async` on a `Stream` with a remote
address reaches the source's `todo!()` and panics instead of returning
absent. -/
theorem c6_read_async_remote_panics :
    read_async (UnitT.stream UnitT.none "net.serv" (AddrT.remote [1, 2, 3, 4, 5, 6, 7, 8]))
      "super" = RA.panicked := rfl

/-! ## Claim C10: `reg_task` and `task_sig` are infallible -/

/-- Claim C10: `reg_task` always returns `Ok` with the current `last_task_id`
(never `TaskAlreadyReg`), and `task_sig` always returns `Ok` and queues
the signal, even for an id that names no task. -/
theorem c10_reg_task_task_sig_infallible (k : KernSt) (usr name : String)
    (run : TaskRunM) (id : Nat) (sig : TaskSigE) :
    (reg_task k usr name run).1 = Except.ok k.lastTaskId ∧
    (task_sig k id sig).1 = Except.ok () ∧
    (task_sig k id sig).2.tasksSignals = k.tasksSignals ++ [(id, sig)] := by
  refine ⟨?_, rfl, rfl⟩
  simp [reg_task]

/-! ## Claim C9: registered task ids are strictly increasing -/

theorem regTaskIds_eq_range' (k : KernSt)
    (rs : List (String × String × TaskRunM)) :
    regTaskIds k rs = List.range' k.lastTaskId rs.length := by
  induction rs generalizing k with
  | nil => rfl
  | cons r t ih =>
    simp only [regTaskIds, reg_task, List.length_cons, List.range'_succ]
    simpa using ih _

/-- Claim C9: across any sequence of `reg_task` calls the returned ids are
strictly increasing in call order (hence pairwise distinct): they are
exactly `last_task_id, last_task_id + 1, …`. -/
theorem c9_reg_task_ids_increasing (k : KernSt)
    (rs : List (String × String × TaskRunM)) :
    regTaskIds k rs = List.range' k.lastTaskId rs.length ∧
    List.Pairwise (· < ·) (regTaskIds k rs) := by
  refine ⟨regTaskIds_eq_range' k rs, ?_⟩
  rw [regTaskIds_eq_range' k rs]
  exact List.pairwise_lt_range' _ _

/-! ## Claim C2: `reg_usr` duplicate detection -/

/-- Claim C2: `reg_usr` fails with `UsrNameAlreadyReg` when a registered user
shares the name under a different public key; otherwise with
`UsrAlreadyReg` when one shares both; otherwise with
`UsrRegWithAnotherName` when one shares the public key under a
different name; otherwise it succeeds and appends the user.  On every
error the kernel state — in particular the users list — is unchanged. -/
theorem c2_reg_usr (k : KernSt) (usr : UsrM) :
    ((∃ u ∈ k.users, u.name = usr.name ∧ u.pub_key ≠ usr.pub_key) →
      reg_usr k usr = (.error KE.UsrNameAlreadyReg, k)) ∧
    ((¬ ∃ u ∈ k.users, u.name = usr.name ∧ u.pub_key ≠ usr.pub_key) →
     (∃ u ∈ k.users, u.name = usr.name ∧ u.pub_key = usr.pub_key) →
      reg_usr k usr = (.error KE.UsrAlreadyReg, k)) ∧
    ((¬ ∃ u ∈ k.users, u.name = usr.name ∧ u.pub_key ≠ usr.pub_key) →
     (¬ ∃ u ∈ k.users, u.name = usr.name ∧ u.pub_key = usr.pub_key) →
     (∃ u ∈ k.users, u.name ≠ usr.name ∧ u.pub_key = usr.pub_key) →
      reg_usr k usr = (.error KE.UsrRegWithAnotherName, k)) ∧
    ((¬ ∃ u ∈ k.users, u.name = usr.name ∧ u.pub_key ≠ usr.pub_key) →
     (¬ ∃ u ∈ k.users, u.name = usr.name ∧ u.pub_key = usr.pub_key) →
     (¬ ∃ u ∈ k.users, u.name ≠ usr.name ∧ u.pub_key = usr.pub_key) →
      reg_usr k usr = (.ok (), { k with users := k.users ++ [usr] })) := by
  refine ⟨fun h1 => ?_, fun h1 h2 => ?_, fun h1 h2 h3 => ?_, fun h1 h2 h3 => ?_⟩ <;>
    simp only [reg_usr, List.any_eq_true, decide_eq_true_eq]
  · rw [if_pos h1]
  · rw [if_neg h1, if_pos h2]
  · rw [if_neg h1, if_neg h2, if_pos h3]
  · rw [if_neg h1, if_neg h2, if_neg h3]

theorem c2_reg_usr_witness :
    (∃ u ∈ (⟨[⟨"a", "p1", Option.none⟩], [], 0, 0, [], []⟩ : KernSt).users,
        u.name = "a" ∧ u.pub_key ≠ "p2") ∧
    reg_usr ⟨[⟨"a", "p1", Option.none⟩], [], 0, 0, [], []⟩ ⟨"a", "p2", Option.none⟩ =
      (.error KE.UsrNameAlreadyReg, ⟨[⟨"a", "p1", Option.none⟩], [], 0, 0, [], []⟩) :=
  ⟨by decide,
   (c2_reg_usr ⟨[⟨"a", "p1", Option.none⟩], [], 0, 0, [], []⟩
     ⟨"a", "p2", Option.none⟩).1 (by decide)⟩

/-! ## Claim C3: ordering of checks in `Usr::verify` -/

/-- Claim C3 (amended): `verify` first decodes and parses the signature and
the public key — a signature that is not valid base64 yields
`DecodeFault`, an unparsable signature `SignVerifyFault`, an unparsable
key `DecodeFault`/`CreatePubKeyFault`, all before any hash comparison —
and only once those succeed does a recomputed-hash mismatch yield
`HashVerifyFault`; with a matching hash the signature is then verified,
a bad one yielding `SignVerifyFault`. -/
theorem c3_verify_order (M : CryptoModel) (usr : UsrM) (u : UnitT)
    (sign hash : String) (bs sig pb pk : List Nat)
    (h1 : b64Decode sign = some bs) (h2 : M.sigFromBytes bs = some sig)
    (h3 : b64Decode usr.pub_key = some pb) (h4 : M.pubFromSec1 pb = some pk) :
    (recomputedHash M u ≠ hash →
      usrVerify M usr u sign hash = .error KE.HashVerifyFault) ∧
    (recomputedHash M u = hash →
      usrVerify M usr u sign hash =
        if M.ecVerify pk (M.asBytes u) sig then .ok ()
        else .error KE.SignVerifyFault) := by
  simp only [usrVerify, recomputedHash, h1, h2, h3, h4]
  constructor
  · intro h
    rw [if_pos h]
  · intro h
    rw [if_neg (by simpa using h)]

theorem c3_verify_order_witness :
    b64Decode "" = some [] ∧ M0.sigFromBytes [] = some [] ∧
    M0.pubFromSec1 [] = some [] ∧ recomputedHash M0 UnitT.none ≠ "x" ∧
    usrVerify M0 ⟨"a", "", Option.none⟩ UnitT.none "" "x" =
      .error KE.HashVerifyFault :=
  ⟨rfl, rfl, rfl, by decide,
   (c3_verify_order M0 ⟨"a", "", Option.none⟩ UnitT.none "" "x" [] [] [] []
     rfl rfl rfl rfl).1 (by decide)⟩

/-- Claim C3 (counterexample): with the signature string "!", which is not
valid base64, `verify` returns `DecodeFault` even though the recomputed
hash differs from the given hash — refuting that a hash mismatch always
yields `HashVerifyFault` regardless of the signature argument. -/
theorem c3_counterexample :
    recomputedHash M0 UnitT.none ≠ "x" ∧
    usrVerify M0 usr0 UnitT.none "!" "x" = .error KE.DecodeFault ∧
    usrVerify M0 usr0 UnitT.none "!" "x" ≠ .error KE.HashVerifyFault := by
  refine ⟨by decide, rfl, ?_⟩
  rw [show usrVerify M0 usr0 UnitT.none "!" "x" = .error KE.DecodeFault from rfl]
  simp

/-! ## Claim C5: `Kern::send` verification and help dispatch -/

/-- Claim C5 (amended): `send` first verifies the message — a verification
error is returned and no handler is invoked — and then dispatches on a
help topic taken from the key "help" of the unit viewed as a map *or
from the unit itself viewed as a bare string*: "info"/"help" yields the
service's help text, "serv" yields the list of registered service
names, anything else yields the handler's coroutine; the dispatch is
reached only when the signed help envelope could be built (the sending
user must hold a private key). -/
theorem c5_send (M : CryptoModel) (k : KernSt) (sv : String) (m : MsgM)
    (usr : UsrM) (serv : ServM) (hm : MsgM) (e : KE) :
    (get_usr k m.ath = .ok usr →
     usrVerify M usr m.msg m.sign m.hash = .error e →
      send M k sv m = .error e) ∧
    (get_usr k m.ath = .ok usr →
     usrVerify M usr m.msg m.sign m.hash = .ok () →
     get_serv k sv = .ok serv →
     kernMsg M k m.ath (UnitT.map [(UnitT.str "msg", UnitT.str serv.help)]) = .ok hm →
      send M k sv m = .ok (some
        (match topicOf m.msg with
         | some topic =>
           if topic = "info" ∨ topic = "help" then SendOut.helpOut hm
           else if topic = "serv" then
             SendOut.servOut ((help_serv M k m.ath).map some)
           else SendOut.handler m sv
         | Option.none => SendOut.handler m sv))) := by
  constructor
  · intro hu hv
    simp only [send, hu, hv]
  · intro hu hv hs hh
    simp only [send, hu, hv, hs, hh]
    cases htop : topicOf m.msg with
    | none => simp
    | some topic =>
      simp only []
      split_ifs <;> rfl

theorem c5_send_witness :
    get_usr k0 m0.ath = .ok usr0 ∧
    usrVerify M1 usr0 m0.msg m0.sign m0.hash = .ok () ∧
    send M1 k0 "echo" m0 =
      .ok (some (SendOut.servOut ((help_serv M1 k0 "a").map some))) := by
  refine ⟨rfl, rfl, ?_⟩
  have h := (c5_send M1 k0 "echo" m0 usr0 ⟨"echo", "h"⟩
    ⟨"a", UnitT.map [(UnitT.str "msg", UnitT.str "h")], "", ""⟩ KE.MemoryOut).2
    rfl rfl rfl rfl
  simpa using h

/-- Claim C5 (counterexample): a message whose unit is the bare string
"serv" — so that the unit viewed as a map holds no "help" key — is
dispatched to the service-list coroutine, not to the service's handler
as the claim requires. -/
theorem c5_counterexample :
    UnitT.as_map_find m0.msg "help" = Option.none ∧
    send M1 k0 "echo" m0 =
      .ok (some (SendOut.servOut ((help_serv M1 k0 "a").map some))) ∧
    send M1 k0 "echo" m0 ≠ .ok (some (SendOut.handler m0 "echo")) := by
  refine ⟨rfl, rfl, ?_⟩
  rw [show send M1 k0 "echo" m0 =
    .ok (some (SendOut.servOut ((help_serv M1 k0 "a").map some))) from rfl]
  simp

/-! ## Claim C4: athority threading through the task operators -/

/-- Claim C4 (amended): for a request recognized by `task.loop`, `task.sep`,
`task.que` or `task.stk`, the operator threads the athority internally,
but `run` returns the *original* athority in every case: when the
threaded athority differs from the original, `run` yields the original
request unit (to be merged and signed under the original athority), and
when it is unchanged `run` yields no unit.  The threaded athority never
reaches the result. -/
theorem c4_run_original_athority (env : TaskEnv) (fuel : Nat)
    (ath : String) (orig msg : UnitT) (a : String) :
    (opLoop env fuel ath msg orig = TR.ok a →
      opRun env fuel ath orig msg =
        TR.ok ((if a ≠ ath then some msg else Option.none), ath)) ∧
    (opLoop env fuel ath msg orig = TR.noRes →
     opSeparate env ath msg orig = TR.ok a →
      opRun env fuel ath orig msg =
        TR.ok ((if a ≠ ath then some msg else Option.none), ath)) ∧
    (opLoop env fuel ath msg orig = TR.noRes →
     opSeparate env ath msg orig = TR.noRes →
     opChain env ath msg orig = TR.noRes →
     opSim env ath msg orig = TR.noRes →
     opQueue env ath msg orig = TR.ok a →
      opRun env fuel ath orig msg =
        TR.ok ((if a ≠ ath then some msg else Option.none), ath)) ∧
    (opLoop env fuel ath msg orig = TR.noRes →
     opSeparate env ath msg orig = TR.noRes →
     opChain env ath msg orig = TR.noRes →
     opSim env ath msg orig = TR.noRes →
     opQueue env ath msg orig = TR.noRes →
     opStack env ath msg orig = TR.ok a →
      opRun env fuel ath orig msg =
        TR.ok ((if a ≠ ath then some msg else Option.none), ath)) := by
  refine ⟨fun h1 => ?_, fun h1 h2 => ?_, fun h1 h2 h3 h4 h5 => ?_,
    fun h1 h2 h3 h4 h5 h6 => ?_⟩
  · simp only [opRun, h1]
    split_ifs <;> rfl
  · simp only [opRun, h1, h2]
    split_ifs <;> rfl
  · simp only [opRun, h1, h2, h3, h4, h5]
    split_ifs <;> rfl
  · simp only [opRun, h1, h2, h3, h4, h5, h6]
    split_ifs <;> rfl

theorem c4_run_original_athority_witness :
    opLoop env0 1 "super" uQue uQue = TR.noRes ∧
    opQueue env0 "super" uQue uQue = TR.ok "other" ∧
    opRun env0 1 "super" uQue uQue = TR.ok (some uQue, "super") := by
  refine ⟨rfl, rfl, ?_⟩
  have h := (c4_run_original_athority env0 1 "super" uQue uQue "other").2.2.1
    rfl rfl rfl rfl rfl
  simpa using h

/-- Claim C4 (counterexample): with a resolver that changes the athority to
"other", a `task.que` request threads "other" through the operator, yet
`run` returns the original athority "super" — the result message is not
produced under the threaded athority. -/
theorem c4_counterexample :
    opQueue env0 "super" uQue uQue = TR.ok "other" ∧
    opRun env0 1 "super" uQue uQue = TR.ok (some uQue, "super") ∧
    "other" ≠ "super" :=
  ⟨rfl, rfl, by decide⟩

/-! ## Claim C1: scheduler results and Kill signals -/

/-- The task ids of a working set. -/
def idsOf (es : List Entry) : List Nat :=
  es.map (fun e => e.task.id)

theorem any_filter_ne {β : Type} (l : List β) (f : β → Nat) (i j : Nat)
    (h : i ≠ j) :
    (l.filter (fun b => f b ≠ j)).any (fun b => f b = i) =
      l.any (fun b => f b = i) := by
  apply Bool.eq_iff_iff.mpr
  simp only [List.any_eq_true, List.mem_filter, decide_eq_true_eq, ne_eq]
  constructor
  · rintro ⟨x, ⟨hx, _⟩, hxi⟩
    exact ⟨x, hx, hxi⟩
  · rintro ⟨x, hx, hxi⟩
    refine ⟨x, ⟨hx, ?_⟩, hxi⟩
    intro hc
    rw [hxi] at hc
    exact h hc

theorem any_filter_self {β : Type} (l : List β) (f : β → Nat) (j : Nat) :
    (l.filter (fun b => f b ≠ j)).any (fun b => f b = j) = false := by
  rw [Bool.eq_false_iff]
  intro hc
  simp only [List.any_eq_true, List.mem_filter, decide_eq_true_eq, ne_eq] at hc
  rcases hc with ⟨x, ⟨_, hxj⟩, hxj'⟩
  exact hxj hxj'

theorem procEntry_killed (st : SchedSt) (e : Entry)
    (hk : sigFor e.task.id st = true) :
    procEntry st e =
      ({ st with
         running := st.running.filter (fun t => t.id ≠ e.task.id),
         signals := st.signals.filter (fun p => p.1 ≠ e.task.id) },
       { e with done := true }) := by
  unfold procEntry
  unfold sigFor at hk
  simp only [hk]
  rfl

theorem procEntry_done (st : SchedSt) (e : Entry)
    (hk : sigFor e.task.id st = false) (hd : e.done = true) :
    procEntry st e = (st, e) := by
  unfold procEntry
  unfold sigFor at hk
  simp only [hk]
  simp [hd]

theorem procEntry_complete (st : SchedSt) (e : Entry)
    (hk : sigFor e.task.id st = false) (hd : e.done = false)
    (hy : e.yields = some 0) :
    procEntry st e =
      ({ st with
         curr := e.task.id,
         results := st.results ++ [(e.task.id, e.out)],
         running := st.running.filter (fun t => t.id ≠ e.task.id) },
       { e with done := true }) := by
  unfold procEntry
  unfold sigFor at hk
  simp only [hk]
  simp [hd, hy]

theorem procEntry_yield (st : SchedSt) (e : Entry) (n : Nat)
    (hk : sigFor e.task.id st = false) (hd : e.done = false)
    (hy : e.yields = some (n + 1)) :
    procEntry st e =
      ({ st with curr := e.task.id }, { e with yields := some n }) := by
  unfold procEntry
  unfold sigFor at hk
  simp only [hk]
  simp [hd, hy]

theorem procEntry_inf (st : SchedSt) (e : Entry)
    (hk : sigFor e.task.id st = false) (hd : e.done = false)
    (hy : e.yields = Option.none) :
    procEntry st e = ({ st with curr := e.task.id }, e) := by
  unfold procEntry
  unfold sigFor at hk
  simp only [hk]
  simp [hd, hy]

theorem procEntry_task (st : SchedSt) (e : Entry) :
    (procEntry st e).2.task = e.task := by
  by_cases hk : sigFor e.task.id st = true
  · rw [procEntry_killed st e hk]
  · rw [Bool.not_eq_true] at hk
    by_cases hd : e.done = true
    · rw [procEntry_done st e hk hd]
    · rw [Bool.not_eq_true] at hd
      cases hy : e.yields with
      | none => rw [procEntry_inf st e hk hd hy]
      | some n =>
        cases n with
        | zero => rw [procEntry_complete st e hk hd hy]
        | succ m => rw [procEntry_yield st e m hk hd hy]

theorem procEntry_other (id : Nat) (st : SchedSt) (e : Entry)
    (h : e.task.id ≠ id) :
    resFor id (procEntry st e).1 = resFor id st ∧
    sigFor id (procEntry st e).1 = sigFor id st ∧
    runningFor id (procEntry st e).1 = runningFor id st := by
  by_cases hk : sigFor e.task.id st = true
  · rw [procEntry_killed st e hk]
    refine ⟨rfl, ?_, ?_⟩
    · exact any_filter_ne st.signals (fun p => p.1) id e.task.id (Ne.symm h)
    · exact any_filter_ne st.running (fun t => t.id) id e.task.id (Ne.symm h)
  · rw [Bool.not_eq_true] at hk
    by_cases hd : e.done = true
    · rw [procEntry_done st e hk hd]
      exact ⟨rfl, rfl, rfl⟩
    · rw [Bool.not_eq_true] at hd
      cases hy : e.yields with
      | none =>
        rw [procEntry_inf st e hk hd hy]
        exact ⟨rfl, rfl, rfl⟩
      | some n =>
        cases n with
        | zero =>
          rw [procEntry_complete st e hk hd hy]
          refine ⟨?_, rfl, ?_⟩
          · unfold resFor
            simp [List.filter_append, h]
          · exact any_filter_ne st.running (fun t => t.id) id e.task.id (Ne.symm h)
        | succ m =>
          rw [procEntry_yield st e m hk hd hy]
          exact ⟨rfl, rfl, rfl⟩

theorem passAll_ids (st : SchedSt) (es : List Entry) :
    idsOf (passAll st es).2 = idsOf es := by
  induction es generalizing st with
  | nil => rfl
  | cons e t ih =>
    simp only [passAll, idsOf, List.map_cons]
    rw [procEntry_task st e]
    exact congrArg _ (ih (procEntry st e).1)

theorem passAll_noTouch (id : Nat) (st : SchedSt) (es : List Entry)
    (h : ∀ e ∈ es, e.task.id ≠ id) :
    resFor id (passAll st es).1 = resFor id st ∧
    sigFor id (passAll st es).1 = sigFor id st ∧
    runningFor id (passAll st es).1 = runningFor id st := by
  induction es generalizing st with
  | nil => exact ⟨rfl, rfl, rfl⟩
  | cons e t ih =>
    have he := h e (List.mem_cons_self e t)
    have h1 := procEntry_other id st e he
    have h2 := ih (procEntry st e).1 (fun e' he' => h e' (List.mem_cons_of_mem e he'))
    simp only [passAll]
    exact ⟨h2.1.trans h1.1, h2.2.1.trans h1.2.1, h2.2.2.trans h1.2.2⟩

theorem passAll_kill (id : Nat) (st : SchedSt) (es : List Entry)
    (hn : (idsOf es).Nodup)
    (hsig : sigFor id st = true)
    (hex : ∃ e ∈ es, e.task.id = id) :
    resFor id (passAll st es).1 = resFor id st ∧
    sigFor id (passAll st es).1 = false ∧
    runningFor id (passAll st es).1 = false ∧
    (∀ e' ∈ (passAll st es).2, e'.task.id = id → e'.done = true) := by
  induction es generalizing st with
  | nil => simp at hex
  | cons e t ih =>
    have hn' := hn
    simp only [idsOf, List.map_cons, List.nodup_cons] at hn'
    have hnt : (idsOf t).Nodup := hn'.2
    by_cases he : e.task.id = id
    · have hnot : id ∉ idsOf t := by
        rw [← he]
        exact hn'.1
      have htne : ∀ e' ∈ t, e'.task.id ≠ id := by
        intro e' he' hcon
        apply hnot
        rw [← hcon]
        exact List.mem_map_of_mem (fun x => x.task.id) he'
      rw [show passAll st (e :: t) =
        ((passAll (procEntry st e).1 t).1,
         (procEntry st e).2 :: (passAll (procEntry st e).1 t).2) from rfl]
      rw [procEntry_killed st e (by rw [he]; exact hsig)]
      have hnt2 := passAll_noTouch id
        { st with
          running := st.running.filter (fun t' => t'.id ≠ e.task.id),
          signals := st.signals.filter (fun p => p.1 ≠ e.task.id) } t htne
      refine ⟨hnt2.1.trans rfl, ?_, ?_, ?_⟩
      · rw [hnt2.2.1, ← he]
        exact any_filter_self st.signals (fun p => p.1) e.task.id
      · rw [hnt2.2.2, ← he]
        exact any_filter_self st.running (fun t' => t'.id) e.task.id
      · intro e' he' hid
        rcases List.mem_cons.mp he' with h' | h'
        · rw [h']
        · exfalso
          apply hnot
          have hmem : e'.task.id ∈
              idsOf (passAll { st with
                running := st.running.filter (fun t' => t'.id ≠ e.task.id),
                signals := st.signals.filter (fun p => p.1 ≠ e.task.id) } t).2 :=
            List.mem_map_of_mem (fun x => x.task.id) h'
          rw [passAll_ids, hid] at hmem
          exact hmem
    · have hexT : ∃ e' ∈ t, e'.task.id = id := by
        rcases hex with ⟨e', he', hid⟩
        rcases List.mem_cons.mp he' with h' | h'
        · rw [h'] at hid
          exact absurd hid he
        · exact ⟨e', h', hid⟩
      have h1 := procEntry_other id st e he
      have ihr := ih (procEntry st e).1 hnt (h1.2.1.trans hsig) hexT
      simp only [passAll]
      refine ⟨ihr.1.trans h1.1, ihr.2.1, ihr.2.2.1, ?_⟩
      intro e' he' hid
      rcases List.mem_cons.mp he' with h' | h'
      · exfalso
        have ht : e'.task = e.task := by
          rw [h']
          exact procEntry_task st e
        apply he
        rw [← hid, ht]
      · exact ihr.2.2.2 e' h' hid

theorem passAll_done (id : Nat) (st : SchedSt) (es : List Entry)
    (hsig : sigFor id st = false)
    (hdone : ∀ e ∈ es, e.task.id = id → e.done = true) :
    resFor id (passAll st es).1 = resFor id st ∧
    sigFor id (passAll st es).1 = false ∧
    runningFor id (passAll st es).1 = runningFor id st ∧
    (∀ e' ∈ (passAll st es).2, e'.task.id = id → e'.done = true) := by
  induction es generalizing st with
  | nil =>
    refine ⟨rfl, hsig, rfl, ?_⟩
    intro e' he'
    simp [passAll] at he'
  | cons e t ih =>
    by_cases he : e.task.id = id
    · have hd := hdone e (List.mem_cons_self e t) he
      rw [show passAll st (e :: t) =
        ((passAll (procEntry st e).1 t).1,
         (procEntry st e).2 :: (passAll (procEntry st e).1 t).2) from rfl]
      rw [procEntry_done st e (by rw [he]; exact hsig) hd]
      have ihr := ih st hsig (fun e' he' => hdone e' (List.mem_cons_of_mem e he'))
      refine ⟨ihr.1, ihr.2.1, ihr.2.2.1, ?_⟩
      intro e' he' hid
      rcases List.mem_cons.mp he' with h' | h'
      · rw [h', hd]
      · exact ihr.2.2.2 e' h' hid
    · have h1 := procEntry_other id st e he
      have ihr := ih (procEntry st e).1 (h1.2.1.trans hsig)
        (fun e' he' => hdone e' (List.mem_cons_of_mem e he'))
      simp only [passAll]
      refine ⟨ihr.1.trans h1.1, ihr.2.1, ihr.2.2.1.trans h1.2.2, ?_⟩
      intro e' he' hid
      rcases List.mem_cons.mp he' with h' | h'
      · exfalso
        have ht : e'.task = e.task := by
          rw [h']
          exact procEntry_task st e
        apply he
        rw [← hid, ht]
      · exact ihr.2.2.2 e' h' hid

theorem passAll_norm (id : Nat) (r : Except KE (Option MsgM))
    (st : SchedSt) (es : List Entry)
    (hn : (idsOf es).Nodup)
    (hsig : sigFor id st = false)
    (hex : ∃ e ∈ es, e.task.id = id ∧ e.done = false ∧
      (∃ n, e.yields = some n) ∧ e.out = r) :
    sigFor id (passAll st es).1 = false ∧
    ((resFor id (passAll st es).1 = resFor id st ∧
      ∃ e' ∈ (passAll st es).2, e'.task.id = id ∧ e'.done = false ∧
        (∃ n, e'.yields = some n) ∧ e'.out = r) ∨
     (resFor id (passAll st es).1 = resFor id st ++ [(id, r)] ∧
      ∀ e' ∈ (passAll st es).2, e'.task.id = id → e'.done = true)) := by
  induction es generalizing st with
  | nil => simp at hex
  | cons e t ih =>
    have hn' := hn
    simp only [idsOf, List.map_cons, List.nodup_cons] at hn'
    have hnt : (idsOf t).Nodup := hn'.2
    by_cases he : e.task.id = id
    · have hnot : id ∉ idsOf t := by
        rw [← he]
        exact hn'.1
      have htne : ∀ e' ∈ t, e'.task.id ≠ id := by
        intro e' he' hcon
        apply hnot
        rw [← hcon]
        exact List.mem_map_of_mem (fun x => x.task.id) he'
      have hwit : e.done = false ∧ (∃ n, e.yields = some n) ∧ e.out = r := by
        rcases hex with ⟨e', he', hid, hrest⟩
        rcases List.mem_cons.mp he' with h' | h'
        · rw [← h']
          exact hrest
        · exact absurd hid (htne e' h')
      rcases hwit with ⟨hd, ⟨n, hy⟩, hout⟩
      rw [show passAll st (e :: t) =
        ((passAll (procEntry st e).1 t).1,
         (procEntry st e).2 :: (passAll (procEntry st e).1 t).2) from rfl]
      cases n with
      | zero =>
        rw [procEntry_complete st e (by rw [he]; exact hsig) hd hy]
        have hnt2 := passAll_noTouch id
          { st with
            curr := e.task.id,
            results := st.results ++ [(e.task.id, e.out)],
            running := st.running.filter (fun t' => t'.id ≠ e.task.id) } t htne
        constructor
        · exact hnt2.2.1.trans hsig
        · right
          constructor
          · rw [hnt2.1]
            unfold resFor
            simp [List.filter_append, he, hout]
          · intro e' he' hid
            rcases List.mem_cons.mp he' with h' | h'
            · rw [h']
            · exfalso
              apply hnot
              have hmem : e'.task.id ∈
                  idsOf (passAll { st with
                    curr := e.task.id,
                    results := st.results ++ [(e.task.id, e.out)],
                    running := st.running.filter (fun t' => t'.id ≠ e.task.id) } t).2 :=
                List.mem_map_of_mem (fun x => x.task.id) h'
              rw [passAll_ids, hid] at hmem
              exact hmem
      | succ m =>
        rw [procEntry_yield st e m (by rw [he]; exact hsig) hd hy]
        have hnt2 := passAll_noTouch id { st with curr := e.task.id } t htne
        constructor
        · exact hnt2.2.1.trans hsig
        · left
          refine ⟨hnt2.1.trans rfl, ⟨{ e with yields := some m }, List.mem_cons_self _ _,
            he, hd, ⟨m, rfl⟩, hout⟩⟩
    · have hexT : ∃ e' ∈ t, e'.task.id = id ∧ e'.done = false ∧
          (∃ n, e'.yields = some n) ∧ e'.out = r := by
        rcases hex with ⟨e', he', hid, hrest⟩
        rcases List.mem_cons.mp he' with h' | h'
        · rw [h'] at hid
          exact absurd hid he
        · exact ⟨e', h', hid, hrest⟩
      have h1 := procEntry_other id st e he
      have ihr := ih (procEntry st e).1 hnt (h1.2.1.trans hsig) hexT
      simp only [passAll]
      refine ⟨ihr.1, ?_⟩
      rcases ihr.2 with ⟨hres, e', he', hrest⟩ | ⟨hres, hall⟩
      · left
        exact ⟨hres.trans h1.1, e', List.mem_cons_of_mem _ he', hrest⟩
      · right
        constructor
        · rw [hres, h1.1]
        · intro e' he' hid
          rcases List.mem_cons.mp he' with h' | h'
          · exfalso
            have ht : e'.task = e.task := by
              rw [h']
              exact procEntry_task st e
            apply he
            rw [← hid, ht]
          · exact hall e' h' hid

theorem sched_norm (fuel : Nat) (st st' : SchedSt) (es es' : List Entry)
    (id : Nat) (r : Except KE (Option MsgM))
    (hn : (idsOf es).Nodup)
    (hsig : sigFor id st = false)
    (hstate :
      (resFor id st = [] ∧ ∃ e ∈ es, e.task.id = id ∧ e.done = false ∧
        (∃ n, e.yields = some n) ∧ e.out = r) ∨
      (resFor id st = [(id, r)] ∧ ∀ e ∈ es, e.task.id = id → e.done = true))
    (h : sched fuel st es = some (st', es')) :
    resFor id st' = [(id, r)] := by
  induction fuel generalizing st es with
  | zero => exact absurd h (by simp [sched])
  | succ fuel ih =>
    simp only [sched] at h
    have hids := passAll_ids st es
    have hn2 : (idsOf (passAll st es).2).Nodup := by
      rw [hids]
      exact hn
    have hstep :
        sigFor id (passAll st es).1 = false ∧
        ((resFor id (passAll st es).1 = [] ∧
          ∃ e ∈ (passAll st es).2, e.task.id = id ∧ e.done = false ∧
            (∃ n, e.yields = some n) ∧ e.out = r) ∨
         (resFor id (passAll st es).1 = [(id, r)] ∧
          ∀ e ∈ (passAll st es).2, e.task.id = id → e.done = true)) := by
      rcases hstate with ⟨hres, hex⟩ | ⟨hres, hall⟩
      · have hp := passAll_norm id r st es hn hsig hex
        refine ⟨hp.1, ?_⟩
        rcases hp.2 with ⟨hres2, hex2⟩ | ⟨hres2, hall2⟩
        · exact Or.inl ⟨hres2.trans hres, hex2⟩
        · refine Or.inr ⟨?_, hall2⟩
          rw [hres2, hres]
          rfl
      · have hp := passAll_done id st es hsig hall
        exact ⟨hp.2.1, Or.inr ⟨hp.1.trans hres, hp.2.2.2⟩⟩
    by_cases hd : allDone (passAll st es).2 = true
    · rw [if_pos hd] at h
      have hpq := Option.some.inj h
      obtain ⟨h1, h2⟩ : (passAll st es).1 = st' ∧ (passAll st es).2 = es' := by
        rw [hpq]
        exact ⟨rfl, rfl⟩
      rcases hstep.2 with ⟨_, e', he', _, hdone', _⟩ | ⟨hres2, _⟩
      · exfalso
        have hall := List.all_eq_true.mp hd e' he'
        rw [hdone'] at hall
        exact Bool.false_ne_true hall
      · rw [← h1]
        exact hres2
    · rw [if_neg hd] at h
      exact ih (passAll st es).1 (passAll st es).2 hn2 hstep.1 hstep.2 h

theorem sched_kill (fuel : Nat) (st st' : SchedSt) (es es' : List Entry)
    (id : Nat)
    (hn : (idsOf es).Nodup)
    (hres : resFor id st = [])
    (hstate :
      (sigFor id st = true ∧ ∃ e ∈ es, e.task.id = id) ∨
      (sigFor id st = false ∧ runningFor id st = false ∧
       ∀ e ∈ es, e.task.id = id → e.done = true))
    (h : sched fuel st es = some (st', es')) :
    resFor id st' = [] ∧ sigFor id st' = false ∧ runningFor id st' = false ∧
    (∀ e ∈ es', e.task.id = id → e.done = true) := by
  induction fuel generalizing st es with
  | zero => exact absurd h (by simp [sched])
  | succ fuel ih =>
    simp only [sched] at h
    have hids := passAll_ids st es
    have hn2 : (idsOf (passAll st es).2).Nodup := by
      rw [hids]
      exact hn
    have hstep : resFor id (passAll st es).1 = [] ∧
        sigFor id (passAll st es).1 = false ∧
        runningFor id (passAll st es).1 = false ∧
        (∀ e ∈ (passAll st es).2, e.task.id = id → e.done = true) := by
      rcases hstate with ⟨hsig, hex⟩ | ⟨hsig, hrun, hall⟩
      · have hp := passAll_kill id st es hn hsig hex
        exact ⟨hp.1.trans hres, hp.2.1, hp.2.2.1, hp.2.2.2⟩
      · have hp := passAll_done id st es hsig hall
        exact ⟨hp.1.trans hres, hp.2.1, hp.2.2.1.trans hrun, hp.2.2.2⟩
    by_cases hd : allDone (passAll st es).2 = true
    · rw [if_pos hd] at h
      have hpq := Option.some.inj h
      obtain ⟨h1, h2⟩ : (passAll st es).1 = st' ∧ (passAll st es).2 = es' := by
        rw [hpq]
        exact ⟨rfl, rfl⟩
      rw [← h1, ← h2]
      exact hstep
    · rw [if_neg hd] at h
      exact ih (passAll st es).1 (passAll st es).2 hn2 hstep.1
        (Or.inr ⟨hstep.2.1, hstep.2.2.1, hstep.2.2.2⟩) h

/-- Claim C1: in any scheduler run of a working set with distinct task ids
that finishes, a task whose coroutine completes with outcome `r` and
for which no Kill signal is queued has exactly one entry `(id, r)`
pushed to `task_result`; a task for which a Kill signal is queued
before its completion has no entry ever pushed, is marked done, is
removed from `tasks_running`, and its signal is consumed. -/
theorem c1_scheduler (fuel : Nat) (st st' : SchedSt) (es es' : List Entry)
    (id : Nat) (r : Except KE (Option MsgM))
    (hn : (idsOf es).Nodup)
    (hres : resFor id st = [])
    (h : sched fuel st es = some (st', es')) :
    ((sigFor id st = false ∧ ∃ e ∈ es, e.task.id = id ∧ e.done = false ∧
        (∃ n, e.yields = some n) ∧ e.out = r) →
      resFor id st' = [(id, r)]) ∧
    ((sigFor id st = true ∧ ∃ e ∈ es, e.task.id = id ∧ e.done = false) →
      resFor id st' = [] ∧ sigFor id st' = false ∧ runningFor id st' = false ∧
      (∀ e ∈ es', e.task.id = id → e.done = true)) := by
  constructor
  · rintro ⟨hsig, hex⟩
    exact sched_norm fuel st st' es es' id r hn hsig (Or.inl ⟨hres, hex⟩) h
  · rintro ⟨hsig, e, he, hid, _⟩
    exact sched_kill fuel st st' es es' id hn hres (Or.inl ⟨hsig, e, he, hid⟩) h

/-- The root task of the witness run. -/
def task0 : TaskM := ⟨"super", "init.load", 0, 0, ⟨UnitT.none, "sys.task"⟩⟩

/-- The outcome of the witness task: a successful message. -/
def msgR : Except KE (Option MsgM) := Except.ok (some ⟨"super", UnitT.none, "", ""⟩)

/-- A working set with one task that yields once and then completes. -/
def es0 : List Entry := [⟨task0, some 1, msgR, false⟩]

/-- The initial scheduler state of the witness run. -/
def st0 : SchedSt := ⟨[task0], [], [], 0⟩

/-- The final scheduler state of the witness run. -/
def stF : SchedSt := ⟨[], [], [(0, msgR)], 0⟩

/-- The final working set of the witness run. -/
def esF : List Entry := [⟨task0, some 0, msgR, true⟩]

theorem c1_scheduler_witness :
    sched 3 st0 es0 = some (stF, esF) ∧
    resFor 0 stF = [(0, msgR)] := by
  refine ⟨rfl, ?_⟩
  apply (c1_scheduler 3 st0 stF es0 esF 0 msgR (by decide) rfl rfl).1
  refine ⟨rfl, ⟨⟨task0, some 1, msgR, false⟩, ?_, rfl, rfl, ⟨1, rfl⟩, rfl⟩⟩
  simp [es0]

end Vnix
